import Mathlib

/-!
Verification of the slice-filtering engine of `ccanalyser`
(`src/ccanalyser/tools/filter.py`) against its natural-language
specification.

The slice table is embedded as a `List Slice`; each pandas operation of the
source is translated into an executable Lean function over that list.
Conventions used throughout:

* a pandas string column holding the `"."` sentinel for
  `restriction_fragment` is embedded as `Option Int` (`none` = `"."`,
  `some n` = integer fragment id), since `remove_multicapture_reporters`
  does integer arithmetic on these values;
* `DataFrame.sort_values(["parent_read", "chrom", "start"])` is embedded
  as a stable insertion sort on the lexicographic key;
* `groupby("parent_read", sort=False)` on the sorted frame is embedded by
  taking the parent keys in order of first appearance and filtering;
* operations that pandas can abort with an exception
  (`remove_multicapture_reporters` on a non-integer restriction fragment,
  `remove_dual_capture_fragments` on an unalignable boolean indexer) are
  embedded as `Option`-valued functions, `none` meaning "raises".
-/

namespace CCAnalyser

/-- One row of the annotated slices table (columns of §3 of the spec /
`SliceFilter.__init__` docstring).  `end` is a Lean keyword, hence `«end»`. -/
structure Slice where
  slice_name : String
  parent_read : String
  pe : String
  mapped : Int
  multimapped : Int
  slice : Int
  chrom : String
  start : Int
  «end» : Int
  capture : String
  capture_count : Int
  exclusion : String
  exclusion_count : Int
  blacklist : Int
  restriction_fragment : Option Int
  coordinates : String
deriving DecidableEq, Repr

/-- Code-point lexicographic comparison of two character lists: the order
numpy/pandas uses on string columns in `sort_values`. -/
def charListLTb : List Char → List Char → Bool
  | [], [] => false
  | [], _ :: _ => true
  | _ :: _, [] => false
  | a :: as, b :: bs =>
    if a < b then true else if b < a then false else charListLTb as bs

theorem charListLTb_iff :
    ∀ x y : List Char, charListLTb x y = true ↔ List.Lex (· < ·) x y
  | [], [] => by
    simp [charListLTb]
  | [], _ :: _ => by
    simp [charListLTb]
    exact List.Lex.nil
  | _ :: _, [] => by
    simp [charListLTb]
  | a :: as, b :: bs => by
    by_cases hab : a < b
    · simp only [charListLTb, if_pos hab, true_iff]
      exact List.Lex.rel hab
    · by_cases hba : b < a
      · simp only [charListLTb, if_neg hab, if_pos hba, Bool.false_eq_true, false_iff]
        intro h
        cases h with
        | rel h => exact hab h
        | cons h => exact lt_irrefl _ hba
      · have hEq : a = b := le_antisymm (not_lt.mp hba) (not_lt.mp hab)
        subst hEq
        simp only [charListLTb, if_neg hab, if_neg hba]
        rw [charListLTb_iff as bs]
        constructor
        · exact List.Lex.cons
        · intro h
          cases h with
          | rel h => exact absurd h hab
          | cons h => exact h

/-- `a < b` on pandas string values. -/
def strLT (a b : String) : Bool := charListLTb a.data b.data

theorem string_data_injective {a b : String} (h : a.data = b.data) : a = b := by
  cases a; cases b; exact congrArg String.mk h

theorem strLT_iff (a b : String) :
    strLT a b = true ↔ List.Lex (· < ·) a.data b.data := charListLTb_iff _ _

theorem strLT_or {a b : String} (h : ¬ a = b) :
    strLT a b = true ∨ strLT b a = true := by
  have inst : IsTrichotomous (List Char) (List.Lex (· < ·)) := inferInstance
  have hd : a.data ≠ b.data := fun hh => h (string_data_injective hh)
  rcases inst.trichotomous a.data b.data with hl | he | hg
  · exact Or.inl ((strLT_iff a b).mpr hl)
  · exact absurd he hd
  · exact Or.inr ((strLT_iff b a).mpr hg)

theorem strLT_trans {a b c : String} (h₁ : strLT a b = true) (h₂ : strLT b c = true) :
    strLT a c = true := by
  have inst : IsTrans (List Char) (List.Lex (· < ·)) := inferInstance
  exact (strLT_iff a c).mpr
    (inst.trans _ _ _ ((strLT_iff a b).mp h₁) ((strLT_iff b c).mp h₂))

theorem strLT_ne {a b : String} (h : strLT a b = true) : ¬ a = b := by
  have inst : IsAsymm (List Char) (List.Lex (· < ·)) := inferInstance
  intro hEq
  subst hEq
  exact inst.asymm _ _ ((strLT_iff a a).mp h) ((strLT_iff a a).mp h)

/-- The sort relation of
`slices.sort_values(["parent_read", "chrom", "start"])` as a Boolean
comparator: lexicographic on the three columns. -/
def sliceLEb (a b : Slice) : Bool :=
  if a.parent_read = b.parent_read then
    if a.chrom = b.chrom then decide (a.start ≤ b.start)
    else strLT a.chrom b.chrom
  else strLT a.parent_read b.parent_read

/-- The sort relation of the `fragments` aggregation. -/
def sliceLE (a b : Slice) : Prop := sliceLEb a b = true

instance : DecidableRel sliceLE := fun a b => inferInstanceAs (Decidable (_ = _))

instance : IsTotal Slice sliceLE := by
  constructor
  intro a b
  unfold sliceLE sliceLEb
  by_cases hp : a.parent_read = b.parent_read
  · rw [if_pos hp, if_pos hp.symm]
    by_cases hc : a.chrom = b.chrom
    · rw [if_pos hc, if_pos hc.symm]
      rcases le_total a.start b.start with h | h
      · exact Or.inl (by simpa using h)
      · exact Or.inr (by simpa using h)
    · rw [if_neg hc, if_neg (fun h => hc h.symm)]
      exact strLT_or hc
  · rw [if_neg hp, if_neg (fun h => hp h.symm)]
    exact strLT_or hp

instance : IsTrans Slice sliceLE := by
  constructor
  intro a b c hab hbc
  unfold sliceLE sliceLEb at *
  by_cases hpab : a.parent_read = b.parent_read
  · by_cases hpbc : b.parent_read = c.parent_read
    · have hpac : a.parent_read = c.parent_read := hpab.trans hpbc
      rw [if_pos hpab] at hab
      rw [if_pos hpbc] at hbc
      rw [if_pos hpac]
      by_cases hcab : a.chrom = b.chrom
      · by_cases hcbc : b.chrom = c.chrom
        · have hcac : a.chrom = c.chrom := hcab.trans hcbc
          rw [if_pos hcab] at hab
          rw [if_pos hcbc] at hbc
          rw [if_pos hcac]
          have h1 : a.start ≤ b.start := by simpa using hab
          have h2 : b.start ≤ c.start := by simpa using hbc
          simpa using h1.trans h2
        · have hcac : ¬ a.chrom = c.chrom := fun h => hcbc (hcab ▸ h)
          rw [if_neg hcbc] at hbc
          rw [if_neg hcac]
          rw [hcab]
          exact hbc
      · by_cases hcbc : b.chrom = c.chrom
        · have hcac : ¬ a.chrom = c.chrom := fun h => hcab (h.trans hcbc.symm)
          rw [if_neg hcab] at hab
          rw [if_neg hcac]
          rw [← hcbc]
          exact hab
        · rw [if_neg hcab] at hab
          rw [if_neg hcbc] at hbc
          by_cases hcac : a.chrom = c.chrom
          · exfalso
            rw [hcac] at hab
            exact strLT_ne (strLT_trans hab hbc) rfl
          · rw [if_neg hcac]
            exact strLT_trans hab hbc
    · have hpac : ¬ a.parent_read = c.parent_read := fun h => hpbc (hpab ▸ h)
      rw [if_neg hpbc] at hbc
      rw [if_neg hpac, hpab]
      exact hbc
  · by_cases hpbc : b.parent_read = c.parent_read
    · have hpac : ¬ a.parent_read = c.parent_read := fun h => hpab (h.trans hpbc.symm)
      rw [if_neg hpab] at hab
      rw [if_neg hpac, ← hpbc]
      exact hab
    · rw [if_neg hpab] at hab
      rw [if_neg hpbc] at hbc
      by_cases hpac : a.parent_read = c.parent_read
      · exfalso
        rw [hpac] at hab
        exact strLT_ne (strLT_trans hab hbc) rfl
      · rw [if_neg hpac]
        exact strLT_trans hab hbc

/-- `slices.sort_values(["parent_read", "chrom", "start"])`. -/
def sortSlices (rows : List Slice) : List Slice := List.insertionSort sliceLE rows

theorem sortSlices_perm (rows : List Slice) : List.Perm (sortSlices rows) rows :=
  List.perm_insertionSort sliceLE rows

theorem sortSlices_sorted (rows : List Slice) : (sortSlices rows).Pairwise sliceLE :=
  List.sorted_insertionSort sliceLE rows

/-- `drop_duplicates(keep="first")` on a key: keep each row whose key was not
seen on an earlier row.  `seen` accumulates the keys already emitted. -/
def dedupFirstAux {α β : Type} [DecidableEq β] (key : α → β) (seen : List β) :
    List α → List α
  | [] => []
  | x :: xs =>
    if key x ∈ seen then dedupFirstAux key seen xs
    else x :: dedupFirstAux key (key x :: seen) xs

/-- `drop_duplicates(subset=key, keep="first")`. -/
def dedupFirst {α β : Type} [DecidableEq β] (key : α → β) (l : List α) : List α :=
  dedupFirstAux key [] l

/-- `duplicated(subset=key, keep="first")`: the rows that repeat the key of an
earlier row. -/
def dupByKeyAux {α β : Type} [DecidableEq β] (key : α → β) (seen : List β) :
    List α → List α
  | [] => []
  | x :: xs =>
    if key x ∈ seen then x :: dupByKeyAux key seen xs
    else dupByKeyAux key (key x :: seen) xs

/-- Rows marked by `duplicated(subset=key, keep="first")`. -/
def dupByKey {α β : Type} [DecidableEq β] (key : α → β) (l : List α) : List α :=
  dupByKeyAux key [] l

/-- `Series.unique()` / first-appearance order of the groupby keys. -/
def uniqueKeys (l : List String) : List String := dedupFirst id l

/-- `Series.nunique()` (pandas counts the `"."` sentinel like any value;
`dropna=True` never fires because the sentinel is a string, not NaN). -/
def countDistinct {β : Type} [DecidableEq β] (l : List β) : Nat := l.dedup.length

theorem dedupFirstAux_sublist {α β : Type} [DecidableEq β] (key : α → β) :
    ∀ (seen : List β) (l : List α), List.Sublist (dedupFirstAux key seen l) l := by
  intro seen l
  induction l generalizing seen with
  | nil => exact List.Sublist.refl _
  | cons x xs ih =>
    simp only [dedupFirstAux]
    split
    · exact (ih seen).cons x
    · exact (ih (key x :: seen)).cons₂ x

theorem dedupFirst_sublist {α β : Type} [DecidableEq β] (key : α → β) (l : List α) :
    List.Sublist (dedupFirst key l) l := dedupFirstAux_sublist key [] l

theorem dupByKeyAux_sublist {α β : Type} [DecidableEq β] (key : α → β) :
    ∀ (seen : List β) (l : List α), List.Sublist (dupByKeyAux key seen l) l := by
  intro seen l
  induction l generalizing seen with
  | nil => exact List.Sublist.refl _
  | cons x xs ih =>
    simp only [dupByKeyAux]
    split
    · exact (ih seen).cons₂ x
    · exact (ih (key x :: seen)).cons x

theorem dupByKey_sublist {α β : Type} [DecidableEq β] (key : α → β) (l : List α) :
    List.Sublist (dupByKey key l) l := dupByKeyAux_sublist key [] l

/-- Count of rows with a given key after first-occurrence deduplication:
zero if the key was already seen, otherwise one per key present in the list. -/
theorem countP_dedupFirstAux {α β : Type} [DecidableEq β] (key : α → β) (k : β) :
    ∀ (seen : List β) (l : List α),
      (dedupFirstAux key seen l).countP (fun a => key a == k) =
        if k ∈ seen then 0
        else if l.any (fun a => key a == k) then 1 else 0 := by
  intro seen l
  induction l generalizing seen with
  | nil => simp [dedupFirstAux]
  | cons x xs ih =>
    simp only [dedupFirstAux]
    split
    · rename_i hx
      rw [ih seen]
      by_cases hk : k ∈ seen
      · simp [hk]
      · have hxk : ¬ key x = k := by
          intro h; rw [h] at hx; exact hk hx
        simp [hk, List.any_cons, hxk]
    · rename_i hx
      rw [List.countP_cons, ih (key x :: seen)]
      by_cases hk : k ∈ seen
      · have hxk : ¬ key x = k := by
          intro h; rw [h] at hx; exact hx hk
        simp [hk, hxk]
      · by_cases hxk : key x = k
        · simp [hxk, hk]
        · have hkx : ¬ k ∈ key x :: seen := by
            intro h
            rcases List.mem_cons.mp h with h' | h'
            · exact hxk h'.symm
            · exact hk h'
          simp [hkx, hk, List.any_cons, hxk]

theorem countP_dedupFirst {α β : Type} [DecidableEq β] (key : α → β) (k : β)
    (l : List α) :
    (dedupFirst key l).countP (fun a => key a == k) =
      if l.any (fun a => key a == k) then 1 else 0 := by
  rw [dedupFirst, countP_dedupFirstAux]
  simp

/-- Every key present in the list is still present after deduplication
(provided it is not suppressed by `seen`). -/
theorem exists_mem_dedupFirstAux {α β : Type} [DecidableEq β] (key : α → β) (k : β) :
    ∀ (seen : List β) (l : List α), (∃ a ∈ l, key a = k) → k ∉ seen →
      ∃ b ∈ dedupFirstAux key seen l, key b = k := by
  intro seen l
  induction l generalizing seen with
  | nil => rintro ⟨a, ha, -⟩; simp at ha
  | cons x xs ih =>
    rintro ⟨a, ha, hak⟩ hks
    simp only [dedupFirstAux]
    split
    · rename_i hx
      rcases List.mem_cons.mp ha with h | h
      · subst h
        rw [hak] at hx
        exact absurd hx hks
      · exact ih seen ⟨a, h, hak⟩ hks
    · rename_i hx
      by_cases hxk : key x = k
      · exact ⟨x, List.mem_cons_self _ _, hxk⟩
      · rcases List.mem_cons.mp ha with h | h
        · subst h
          exact absurd hak hxk
        · obtain ⟨b, hb, hbk⟩ := ih (key x :: seen) ⟨a, h, hak⟩ (by
            intro hmem
            rcases List.mem_cons.mp hmem with h' | h'
            · exact hxk h'.symm
            · exact hks h')
          exact ⟨b, List.mem_cons_of_mem _ hb, hbk⟩

theorem exists_mem_dedupFirst {α β : Type} [DecidableEq β] (key : α → β) (k : β)
    (l : List α) (h : ∃ a ∈ l, key a = k) :
    ∃ b ∈ dedupFirst key l, key b = k :=
  exists_mem_dedupFirstAux key k [] l h (by simp)

theorem mem_of_mem_dedupFirst {α β : Type} [DecidableEq β] {key : α → β}
    {l : List α} {a : α} (h : a ∈ dedupFirst key l) : a ∈ l :=
  (dedupFirst_sublist key l).mem h

theorem mem_uniqueKeys {l : List String} {k : String} :
    k ∈ uniqueKeys l ↔ k ∈ l := by
  constructor
  · exact fun h => mem_of_mem_dedupFirst h
  · intro h
    obtain ⟨b, hb, hbk⟩ := exists_mem_dedupFirst (id : String → String) k l ⟨k, h, rfl⟩
    exact hbk ▸ hb

/-- The keys produced by first-occurrence deduplication are pairwise distinct. -/
theorem pairwise_key_dedupFirstAux {α β : Type} [DecidableEq β] (key : α → β) :
    ∀ (seen : List β) (l : List α),
      (dedupFirstAux key seen l).Pairwise (fun a b => key a ≠ key b) ∧
      ∀ a ∈ dedupFirstAux key seen l, key a ∉ seen := by
  intro seen l
  induction l generalizing seen with
  | nil => simp [dedupFirstAux]
  | cons x xs ih =>
    simp only [dedupFirstAux]
    split
    · exact ih seen
    · rename_i hx
      obtain ⟨hpw, hseen⟩ := ih (key x :: seen)
      refine ⟨List.Pairwise.cons ?_ hpw, ?_⟩
      · intro b hb
        have := hseen b hb
        exact fun h => this (h ▸ List.mem_cons_self _ _)
      · intro a ha
        rcases List.mem_cons.mp ha with h | h
        · exact h ▸ hx
        · exact fun hs => hseen a h (List.mem_cons_of_mem _ hs)

theorem nodup_uniqueKeys (l : List String) : (uniqueKeys l).Nodup := by
  have := (pairwise_key_dedupFirstAux (id : String → String) [] l).1
  exact this.imp (fun h => h)

/-- A row marked `duplicated` repeats a key: at least two rows of the list
carry its key. -/
theorem dupByKeyAux_spec {α β : Type} [DecidableEq β] (key : α → β) :
    ∀ (seen : List β) (l : List α) (a : α), a ∈ dupByKeyAux key seen l →
      a ∈ l ∧ (key a ∈ seen ∨ 2 ≤ l.countP (fun b => key b == key a)) := by
  intro seen l
  induction l generalizing seen with
  | nil => intro a ha; simp [dupByKeyAux] at ha
  | cons x xs ih =>
    intro a ha
    simp only [dupByKeyAux] at ha
    split at ha
    · rename_i hx
      rcases List.mem_cons.mp ha with h | h
      · subst h
        exact ⟨List.mem_cons_self _ _, Or.inl hx⟩
      · obtain ⟨hmem, hcase⟩ := ih seen a h
        refine ⟨List.mem_cons_of_mem _ hmem, ?_⟩
        rcases hcase with h' | h'
        · exact Or.inl h'
        · refine Or.inr (le_trans h' ?_)
          rw [List.countP_cons]
          omega
    · rename_i hx
      obtain ⟨hmem, hcase⟩ := ih (key x :: seen) a ha
      refine ⟨List.mem_cons_of_mem _ hmem, ?_⟩
      rcases hcase with h' | h'
      · rcases List.mem_cons.mp h' with h'' | h''
        · refine Or.inr ?_
          have h1 : 0 < xs.countP fun b => key b == key a :=
            List.countP_pos_iff.mpr ⟨a, hmem, by simp⟩
          rw [List.countP_cons]
          have hcond : (key x == key a) = true := by simp [h'']
          rw [hcond]
          simp only [if_true]
          omega
        · exact Or.inl h''
      · refine Or.inr ?_
        rw [List.countP_cons]; omega

theorem dupByKey_spec {α β : Type} [DecidableEq β] (key : α → β) (l : List α)
    (a : α) (ha : a ∈ dupByKey key l) :
    a ∈ l ∧ 2 ≤ l.countP (fun b => key b == key a) := by
  obtain ⟨hmem, hcase⟩ := dupByKeyAux_spec key [] l a ha
  exact ⟨hmem, hcase.resolve_left (by simp)⟩

/-! ### String splitting (`Series.str.split`) -/

/-- Split a character list at every character satisfying `p`
(the separators are dropped, empty pieces are kept — the semantics of
`str.split` on a one-character or character-class pattern). -/
def splitChars (p : Char → Bool) : List Char → List (List Char)
  | [] => [[]]
  | x :: xs =>
    if p x then [] :: splitChars p xs
    else
      match splitChars p xs with
      | [] => [[x]]
      | y :: ys => (x :: y) :: ys

/-- `Series.str.split("|")`. -/
def splitBar (s : String) : List String :=
  (splitChars (fun c => c = '|') s.data).map String.mk

/-- `Series.str.split(":|-")` (a regex alternation of the two separator
characters). -/
def splitColonDash (s : String) : List String :=
  (splitChars (fun c => c = ':' || c = '-') s.data).map String.mk

/-- `needle` is a prefix of the first list. -/
def startsWithChars : List Char → List Char → Bool
  | _, [] => true
  | [], _ :: _ => false
  | a :: as, b :: bs => a = b && startsWithChars as bs

/-- Substring search: `Series.str.contains(needle)` for a literal pattern. -/
def hasSubstr (needle : List Char) : List Char → Bool
  | [] => needle.isEmpty
  | x :: xs => startsWithChars (x :: xs) needle || hasSubstr needle xs

/-- `Series.str.contains("unflashed")` on the `pe` column. -/
def peContainsUnflashed (s : Slice) : Bool :=
  hasSubstr "unflashed".data s.pe.data

/-- `.str[1]` of the `":|-"` split of the first `"|"` piece: the textual
read start used by `remove_duplicate_slices_pe`. -/
def readStart (coords : String) : String :=
  (splitColonDash ((splitBar coords).headD "")).getD 1 ""

/-- `.str[-1]` of the `":|-"` split of the last `"|"` piece: the textual
read end used by `remove_duplicate_slices_pe`. -/
def readEnd (coords : String) : String :=
  (splitColonDash ((splitBar coords).getLastD "")).getLastD ""

/-! ### Fragment aggregation (`CCSliceFilter.fragments`,
`TiledCSliceFilter.fragments`) -/

/-- One row of the standard-variant fragments table: the result of
`groupby("parent_read").agg({...})` followed by the `capture`/`exclusion`
adjustment, the `reporter_count` assignment and the renaming of
`CCSliceFilter.fragments`. -/
structure Fragment where
  parent_read : String
  unique_slices : Nat
  pe : String
  mapped : Int
  multimapped : Int
  unique_capture_sites : Int
  capture_count : Int
  unique_exclusion_sites : Int
  exclusion_count : Int
  unique_restriction_fragments : Nat
  blacklisted_slices : Int
  coordinates : String
  reporter_count : Int
deriving DecidableEq, Repr

instance : Inhabited Slice :=
  ⟨⟨"", "", "", 0, 0, 0, "", 0, 0, "", 0, "", 0, 0, none, ""⟩⟩

/-- Aggregation of one `parent_read` group, `g` being the group rows in the
order of the `(parent_read, chrom, start)`-sorted frame. -/
def aggGroup (p : String) (g : List Slice) : Fragment :=
  let mappedSum := (g.map (·.mapped)).sum
  let capCountSum := (g.map (·.capture_count)).sum
  let exclCountSum := (g.map (·.exclusion_count)).sum
  let blackSum := (g.map (·.blacklist)).sum
  { parent_read := p
    unique_slices := countDistinct (g.map (·.slice))
    pe := (g.headD default).pe
    mapped := mappedSum
    multimapped := (g.map (·.multimapped)).sum
    unique_capture_sites := (countDistinct (g.map (·.capture)) : Int) - 1
    capture_count := capCountSum
    unique_exclusion_sites := (countDistinct (g.map (·.exclusion)) : Int) - 1
    exclusion_count := exclCountSum
    unique_restriction_fragments := countDistinct (g.map (·.restriction_fragment))
    blacklisted_slices := blackSum
    coordinates := String.intercalate "|" (g.map (·.coordinates))
    reporter_count :=
      if 0 < capCountSum then mappedSum - (exclCountSum + capCountSum + blackSum)
      else 0 }

/-- The group of `parent_read == p` rows, in the row order of the
`(parent_read, chrom, start)`-sorted frame. -/
def groupOf (rows : List Slice) (p : String) : List Slice :=
  (sortSlices rows).filter (fun s => s.parent_read = p)

/-- `CCSliceFilter.fragments`: sort by `(parent_read, chrom, start)`, group
by `parent_read` (groups in first-appearance order, i.e. sorted parent
order), aggregate each group. -/
def ccFragments (rows : List Slice) : List Fragment :=
  (uniqueKeys ((sortSlices rows).map (·.parent_read))).map
    (fun p => aggGroup p (groupOf rows p))

/-- One row of the tiled-variant fragments table
(`TiledCSliceFilter.fragments`): no capture/exclusion nunique columns. -/
structure TiledFragment where
  parent_read : String
  unique_slices : Nat
  pe : String
  mapped : Int
  multimapped : Int
  capture_count : Int
  unique_restriction_fragments : Nat
  blacklisted_slices : Int
  coordinates : String
deriving DecidableEq, Repr

/-- Aggregation of one `parent_read` group in the tiled variant. -/
def aggGroupTiled (p : String) (g : List Slice) : TiledFragment :=
  { parent_read := p
    unique_slices := countDistinct (g.map (·.slice))
    pe := (g.headD default).pe
    mapped := (g.map (·.mapped)).sum
    multimapped := (g.map (·.multimapped)).sum
    capture_count := (g.map (·.capture_count)).sum
    unique_restriction_fragments := countDistinct (g.map (·.restriction_fragment))
    blacklisted_slices := (g.map (·.blacklist)).sum
    coordinates := String.intercalate "|" (g.map (·.coordinates)) }

/-- `TiledCSliceFilter.fragments`. -/
def tiledFragments (rows : List Slice) : List TiledFragment :=
  (uniqueKeys ((sortSlices rows).map (·.parent_read))).map
    (fun p => aggGroupTiled p (groupOf rows p))

/-! ### Slice-level statistics (`slice_stats`) -/

/-- The aggregate computed by `CCSliceFilter.slice_stats` (after renaming). -/
structure SliceStats where
  unique_slices : Nat
  unique_fragments : Nat
  mapped : Int
  multimapping_slices : Int
  unique_capture_sites : Nat
  number_of_capture_slices : Nat
  number_of_slices_in_exclusion_region : Nat
  number_of_slices_in_blacklisted_region : Int
deriving DecidableEq, Repr

/-- The columnwise aggregation of `CCSliceFilter.slice_stats`. -/
def ccSliceStatsOf (rows : List Slice) : SliceStats :=
  { unique_slices := countDistinct (rows.map (·.slice_name))
    unique_fragments := countDistinct (rows.map (·.parent_read))
    mapped := (rows.map (·.mapped)).sum
    multimapping_slices := (rows.map (·.multimapped)).sum
    unique_capture_sites := countDistinct (rows.map (·.capture))
    number_of_capture_slices := rows.countP (fun s => 0 < s.capture_count)
    number_of_slices_in_exclusion_region := rows.countP (fun s => 0 < s.exclusion_count)
    number_of_slices_in_blacklisted_region := (rows.map (·.blacklist)).sum }

/-- The row a zero-row table is padded with: `slices[col] = np.zeros((10,))`
replaces every column of the empty frame by ten float zeros (string-typed
columns end up holding the float value `0.0` — rendered here as `"0.0"`;
only its equality across the ten rows matters to the aggregation). -/
def zeroPadSlice : Slice :=
  { slice_name := "0.0", parent_read := "0.0", pe := "0.0", mapped := 0
    multimapped := 0, slice := 0, chrom := "0.0", start := 0, «end» := 0
    capture := "0.0", capture_count := 0, exclusion := "0.0"
    exclusion_count := 0, blacklist := 0, restriction_fragment := some 0
    coordinates := "0.0" }

/-- `CCSliceFilter.slice_stats`: an empty table is first padded with ten
all-zero rows, then aggregated. -/
def ccSliceStats (rows : List Slice) : SliceStats :=
  ccSliceStatsOf (if rows.isEmpty then List.replicate 10 zeroPadSlice else rows)

/-- The aggregate computed by `TiledCSliceFilter.slice_stats`
(no exclusion column, no empty-table padding). -/
structure TiledSliceStats where
  unique_slices : Nat
  unique_fragments : Nat
  mapped : Int
  multimapping_slices : Int
  number_of_capture_slices : Nat
  number_of_slices_in_blacklisted_region : Int
deriving DecidableEq, Repr

/-- `TiledCSliceFilter.slice_stats`. -/
def tiledSliceStats (rows : List Slice) : TiledSliceStats :=
  { unique_slices := countDistinct (rows.map (·.slice_name))
    unique_fragments := countDistinct (rows.map (·.parent_read))
    mapped := (rows.map (·.mapped)).sum
    multimapping_slices := (rows.map (·.multimapped)).sum
    number_of_capture_slices := rows.countP (fun s => 0 < s.capture_count)
    number_of_slices_in_blacklisted_region := (rows.map (·.blacklist)).sum }

/-! ### Schema check and construction
(`SliceFilter._check_required_columns_present`, `SliceFilter.__init__`) -/

/-- The columns `_check_required_columns_present` actually checks
(lines 77-92 of `filter.py`). -/
def requiredColumns : List String :=
  ["slice_name", "parent_read", "pe", "mapped", "multimapped", "slice",
   "chrom", "start", "end", "capture", "capture_count", "exclusion",
   "blacklist", "coordinates"]

/-- The full input-column list enumerated in §3 of the spec. -/
def specColumns : List String :=
  ["slice_name", "parent_read", "pe", "mapped", "multimapped", "slice",
   "chrom", "start", "end", "capture", "capture_count", "exclusion",
   "exclusion_count", "blacklist", "restriction_fragment", "coordinates"]

/-- `_check_required_columns_present`: raise `KeyError` naming the first
required column absent from the table's columns. -/
def checkRequiredColumnsPresent (cols : List String) : Except String Unit :=
  match requiredColumns.find? (fun c => ¬ cols.contains c) with
  | some c => Except.error ("Required column \"" ++ c ++ "\" not in slices dataframe")
  | none => Except.ok ()

/-- `SliceFilter.__init__` up to its two failure points: the column check,
then the `filter_stages` truthiness check. -/
def sliceFilterInit (cols : List String) (filterStages : List (String × List String)) :
    Except String Unit :=
  match checkRequiredColumnsPresent cols with
  | Except.error e => Except.error e
  | Except.ok _ =>
    if filterStages.isEmpty then Except.error "Filter stages not provided"
    else Except.ok ()

/-- The default `filter_stages` of `CCSliceFilter.__init__`. -/
def ccFilterStages : List (String × List String) :=
  [("pre-filtering", ["get_raw_slices"]),
   ("mapped", ["remove_unmapped_slices"]),
   ("contains_single_capture",
     ["remove_orphan_slices", "remove_multi_capture_fragments"]),
   ("contains_capture_and_reporter",
     ["remove_excluded_slices", "remove_blacklisted_slices",
      "remove_non_reporter_fragments", "remove_multicapture_reporters"]),
   ("duplicate_filtered",
     ["remove_slices_without_re_frag_assigned", "remove_duplicate_re_frags",
      "remove_duplicate_slices", "remove_duplicate_slices_pe",
      "remove_non_reporter_fragments"])]

/-! ### Filter operations -/

/-- `get_raw_slices`. -/
def getRawSlices (rows : List Slice) : List Slice := rows

/-- `remove_unmapped_slices`: `query("mapped == 1")`. -/
def removeUnmappedSlices (rows : List Slice) : List Slice :=
  rows.filter (fun s => s.mapped = 1)

/-- `Series.isin`: membership of a slice's parent read in a list of parents. -/
def parentIn (ps : List String) (s : Slice) : Bool := ps.contains s.parent_read

/-- `remove_orphan_slices` with the standard-variant `fragments`. -/
def removeOrphanSlicesCC (rows : List Slice) : List Slice :=
  let keep := ((ccFragments rows).filter (fun f => 1 < f.unique_slices)).map (·.parent_read)
  rows.filter (parentIn keep)

/-- `remove_orphan_slices` with the tiled-variant `fragments`. -/
def removeOrphanSlicesTiled (rows : List Slice) : List Slice :=
  let keep := ((tiledFragments rows).filter (fun f => 1 < f.unique_slices)).map (·.parent_read)
  rows.filter (parentIn keep)

/-- `remove_duplicate_re_frags`:
`drop_duplicates(subset=["parent_read", "restriction_fragment"])`. -/
def removeDuplicateReFrags (rows : List Slice) : List Slice :=
  dedupFirst (fun s => (s.parent_read, s.restriction_fragment)) rows

/-- `remove_slices_without_re_frag_assigned`:
`query('restriction_fragment != "."')`. -/
def removeSlicesWithoutReFragAssigned (rows : List Slice) : List Slice :=
  rows.filter (fun s => s.restriction_fragment.isSome)

/-- `remove_duplicate_slices`: shuffle the fragments table
(`sample(frac=1)` — `shuffled` is the caller-supplied permutation of
`ccFragments rows`), `drop_duplicates(subset="coordinates", keep="first")`,
keep slices of surviving fragments. -/
def removeDuplicateSlices (rows : List Slice) (shuffled : List Fragment) : List Slice :=
  let keep := (dedupFirst (fun f => f.coordinates) shuffled).map (·.parent_read)
  rows.filter (parentIn keep)

/-- `remove_duplicate_slices_pe`. -/
def removeDuplicateSlicesPE (rows : List Slice) : List Slice :=
  if 1 < rows.countP peContainsUnflashed then
    let fragsPE := (ccFragments rows).filter (fun f => f.pe = "unflashed")
    let dupParents :=
      (dupByKey (fun f => (readStart f.coordinates, readEnd f.coordinates)) fragsPE).map
        (·.parent_read)
    rows.filter (fun s => ¬ dupParents.contains s.parent_read)
  else rows

/-- `remove_excluded_slices`: `query("exclusion_count < 1")`. -/
def removeExcludedSlices (rows : List Slice) : List Slice :=
  rows.filter (fun s => s.exclusion_count < 1)

/-- `remove_blacklisted_slices`: `query("blacklist < 1")`. -/
def removeBlacklistedSlices (rows : List Slice) : List Slice :=
  rows.filter (fun s => s.blacklist < 1)

/-- `remove_non_reporter_fragments` (standard variant). -/
def removeNonReporterFragments (rows : List Slice) : List Slice :=
  let keep := ((ccFragments rows).filter (fun f => 0 < f.reporter_count)).map (·.parent_read)
  rows.filter (parentIn keep)

/-- `remove_multi_capture_fragments`:
keep fragments with `0 < unique_capture_sites < 2`. -/
def removeMultiCaptureFragments (rows : List Slice) : List Slice :=
  let keep :=
    ((ccFragments rows).filter
      (fun f => 0 < f.unique_capture_sites ∧ f.unique_capture_sites < 2)).map (·.parent_read)
  rows.filter (parentIn keep)

/-- `range(-n_adjacent, n_adjacent + 1)`. -/
def adjacentModifiers (nAdj : Int) : List Int :=
  (List.range (2 * nAdj.toNat + 1)).map (fun i => (i : Int) - nAdj)

/-- `remove_multicapture_reporters`: `frag + modifier` over the restriction
fragments touched by capture slices raises a `TypeError` (`none` here) as
soon as one of them is the string sentinel `"."`; otherwise keep slices that
are capture slices or whose restriction fragment is not within
`n_adjacent` of a capture-touched fragment. -/
def removeMulticaptureReporters (nAdj : Int) (rows : List Slice) :
    Option (List Slice) :=
  let caps := rows.filter (fun s => ¬ s.capture = ".")
  let reFrags := dedupFirst id (caps.map (·.restriction_fragment))
  if reFrags.all (·.isSome) then
    let excluded :=
      ((reFrags.filterMap id).map (fun frag => (adjacentModifiers nAdj).map (frag + ·))).join
    some (rows.filter
      (fun s => 0 < s.capture_count ∨ ¬ (s.restriction_fragment.elim false excluded.contains)))
  else none

/-- `remove_slices_with_one_reporter` (triplet variant). -/
def removeSlicesWithOneReporter (rows : List Slice) : List Slice :=
  let keep := ((ccFragments rows).filter (fun f => 1 < f.reporter_count)).map (·.parent_read)
  rows.filter (parentIn keep)

/-- `remove_slices_outside_capture` (tiled variant): `query('capture != "."')`. -/
def removeSlicesOutsideCapture (rows : List Slice) : List Slice :=
  rows.filter (fun s => ¬ s.capture = ".")

/-- `remove_non_capture_fragments` (tiled variant). -/
def removeNonCaptureFragments (rows : List Slice) : List Slice :=
  let keep := ((tiledFragments rows).filter (fun f => 0 < f.capture_count)).map (·.parent_read)
  rows.filter (parentIn keep)

/-- Parent reads whose non-sentinel capture slices span more than one
distinct capture site (the `groupby("parent_read")["capture"].nunique() > 1`
boolean series of `remove_dual_capture_fragments`). -/
def multicaptureParent (rows : List Slice) (p : String) : Bool :=
  1 < countDistinct (((rows.filter (fun s => ¬ s.capture = ".")).filter
      (fun s => s.parent_read = p)).map (·.capture))

/-- `remove_dual_capture_fragments` (tiled variant).  The boolean mask is
indexed by the parent reads that have a non-sentinel capture slice;
`.loc` on the `parent_read`-indexed slices raises (`none`) unless every
slice's parent read appears in that index. -/
def removeDualCaptureFragments (rows : List Slice) : Option (List Slice) :=
  let capParents :=
    uniqueKeys ((rows.filter (fun s => ¬ s.capture = ".")).map (·.parent_read))
  if rows.all (fun s => capParents.contains s.parent_read) then
    some (rows.filter (fun s => ¬ multicaptureParent rows s.parent_read))
  else none

/-! ### Structural lemmas about the fragment aggregation -/

theorem aggGroup_parent (p : String) (g : List Slice) :
    (aggGroup p g).parent_read = p := rfl

theorem countDistinct_perm {β : Type} [DecidableEq β] {l₁ l₂ : List β}
    (h : List.Perm l₁ l₂) : countDistinct l₁ = countDistinct l₂ :=
  h.dedup.length_eq

theorem groupOf_perm (rows : List Slice) (p : String) :
    List.Perm (groupOf rows p) (rows.filter (fun s => s.parent_read = p)) :=
  (sortSlices_perm rows).filter _

theorem mem_groupOf {rows : List Slice} {p : String} {s : Slice} :
    s ∈ groupOf rows p ↔ s ∈ rows ∧ s.parent_read = p := by
  rw [groupOf, List.mem_filter, (sortSlices_perm rows).mem_iff]
  simp

/-- The parent keys the fragment tables are built over. -/
def fragKeys (rows : List Slice) : List String :=
  uniqueKeys ((sortSlices rows).map (·.parent_read))

theorem mem_fragKeys {rows : List Slice} {p : String} :
    p ∈ fragKeys rows ↔ ∃ s ∈ rows, s.parent_read = p := by
  rw [fragKeys, mem_uniqueKeys, List.mem_map]
  constructor
  · rintro ⟨s, hs, he⟩
    exact ⟨s, (sortSlices_perm rows).mem_iff.mp hs, he⟩
  · rintro ⟨s, hs, he⟩
    exact ⟨s, (sortSlices_perm rows).mem_iff.mpr hs, he⟩

theorem ccFragments_eq (rows : List Slice) :
    ccFragments rows = (fragKeys rows).map (fun p => aggGroup p (groupOf rows p)) := rfl

theorem mem_ccFragments {rows : List Slice} {f : Fragment} :
    f ∈ ccFragments rows ↔ ∃ p ∈ fragKeys rows, aggGroup p (groupOf rows p) = f := by
  rw [ccFragments_eq, List.mem_map]

theorem ccFragments_self_of_mem {rows : List Slice} {f : Fragment}
    (hf : f ∈ ccFragments rows) :
    f = aggGroup f.parent_read (groupOf rows f.parent_read) ∧
      f.parent_read ∈ fragKeys rows := by
  obtain ⟨p, hp, he⟩ := mem_ccFragments.mp hf
  have hpar : f.parent_read = p := by rw [← he]; exact aggGroup_parent p _
  rw [hpar]
  exact ⟨he.symm, hp⟩

theorem ccFragments_parents (rows : List Slice) :
    (ccFragments rows).map (·.parent_read) = fragKeys rows := by
  rw [ccFragments_eq, List.map_map]
  exact List.map_id'' (fun p => rfl) _

theorem ccFragments_parents_nodup (rows : List Slice) :
    ((ccFragments rows).map (·.parent_read)).Nodup := by
  rw [ccFragments_parents]
  exact nodup_uniqueKeys _

theorem groupOf_ne_nil {rows : List Slice} {p : String}
    (hp : p ∈ fragKeys rows) : groupOf rows p ≠ [] := by
  obtain ⟨s, hs, he⟩ := mem_fragKeys.mp hp
  intro hnil
  have : s ∈ groupOf rows p := mem_groupOf.mpr ⟨hs, he⟩
  rw [hnil] at this
  simp at this

theorem headD_mem {α : Type} {l : List α} (h : ¬ l = []) (d : α) :
    l.headD d ∈ l := by
  cases l with
  | nil => exact absurd rfl h
  | cons a t => exact List.mem_cons_self a t

/-- Genomic order within a fragment: lexicographic on `(chrom, start)`. -/
def genLE (a b : Slice) : Prop :=
  (a.chrom = b.chrom ∧ a.start ≤ b.start) ∨ List.Lex (· < ·) a.chrom.data b.chrom.data

/-- Two slices of the same parent read that are in `sliceLE` order are in
genomic `(chrom, start)` order. -/
theorem genLE_of_sliceLE {a b : Slice} (hp : a.parent_read = b.parent_read)
    (h : sliceLE a b) : genLE a b := by
  unfold sliceLE sliceLEb at h
  rw [if_pos hp] at h
  by_cases hc : a.chrom = b.chrom
  · rw [if_pos hc] at h
    exact Or.inl ⟨hc, by simpa using h⟩
  · rw [if_neg hc] at h
    exact Or.inr ((strLT_iff _ _).mp h)

/-- The rows of a group are pairwise in genomic order (the group is a
filtered view of the `(parent_read, chrom, start)`-sorted frame). -/
theorem groupOf_pairwise_genLE (rows : List Slice) (p : String) :
    (groupOf rows p).Pairwise genLE := by
  have hsorted : (groupOf rows p).Pairwise sliceLE :=
    (sortSlices_sorted rows).sublist (List.filter_sublist _)
  have hmem : ∀ s ∈ groupOf rows p, s.parent_read = p := by
    intro s hs
    exact (mem_groupOf.mp hs).2
  refine hsorted.imp_of_mem ?_
  intro a b ha hb h
  exact genLE_of_sliceLE ((hmem a ha).trans (hmem b hb).symm) h

/-! ### Concrete tables used by counterexamples and witnesses -/

/-- A mapped, flashed, non-capture slice used as the basis of the concrete
tables below. -/
def rowBase : Slice :=
  { slice_name := "q1:0|flashed|0"
    parent_read := "q1:0"
    pe := "flashed"
    mapped := 1
    multimapped := 0
    slice := 0
    chrom := "chr1"
    start := 100
    «end» := 200
    capture := "."
    capture_count := 0
    exclusion := "."
    exclusion_count := 0
    blacklist := 0
    restriction_fragment := some 7
    coordinates := "chr1:100-200" }

/-- First slice (slice 0) of the C1 table: genomically later (chr2). -/
def c1s0 : Slice :=
  { rowBase with slice_name := "a|0", parent_read := "a", slice := 0,
                 chrom := "chr2", start := 100, «end» := 200,
                 coordinates := "chr2:100-200" }

/-- Second slice (slice 1) of the C1 table: genomically earlier (chr1). -/
def c1s1 : Slice :=
  { rowBase with slice_name := "a|1", parent_read := "a", slice := 1,
                 chrom := "chr1", start := 300, «end» := 400,
                 coordinates := "chr1:300-400" }

/-- The single fragment aggregated from the C1 table. -/
def c1frag : Fragment := aggGroup "a" (groupOf [c1s0, c1s1] "a")

/-- Unflashed fragment `ua`, read 5′→3′ slice order chr1:500-600 then
chr1:100-200 (first slice start 500, last slice end 200). -/
def peA0 : Slice :=
  { rowBase with slice_name := "ua|0", parent_read := "ua", pe := "unflashed",
                 slice := 0, start := 500, «end» := 600,
                 coordinates := "chr1:500-600" }

def peA1 : Slice :=
  { rowBase with slice_name := "ua|1", parent_read := "ua", pe := "unflashed",
                 slice := 1, start := 100, «end» := 200,
                 coordinates := "chr1:100-200" }

/-- Unflashed fragment `ub`, slice order chr1:100-150 then chr1:550-600
(first slice start 100, last slice end 600). -/
def peB0 : Slice :=
  { rowBase with slice_name := "ub|0", parent_read := "ub", pe := "unflashed",
                 slice := 0, start := 100, «end» := 150,
                 coordinates := "chr1:100-150" }

def peB1 : Slice :=
  { rowBase with slice_name := "ub|1", parent_read := "ub", pe := "unflashed",
                 slice := 1, start := 550, «end» := 600,
                 coordinates := "chr1:550-600" }

/-- The C4 table, sorted by `(parent_read, slice)`. -/
def peTable : List Slice := [peA0, peA1, peB0, peB1]

/-- C5 counterexample row: a capture slice with no sentinel capture in its
fragment and an unassigned restriction fragment. -/
def c5s : Slice :=
  { rowBase with slice_name := "c5|0", parent_read := "c5", capture := "Slc25A37",
                 capture_count := 1, restriction_fragment := none }

/-- The single fragment aggregated from the C5 table. -/
def c5frag : Fragment := aggGroup "c5" (groupOf [c5s] "c5")

/-- Capture slice on restriction fragment 100. -/
def cap100 : Slice :=
  { rowBase with slice_name := "r|0", parent_read := "r", slice := 0,
                 capture := "A", capture_count := 1,
                 restriction_fragment := some 100 }

/-- Reporter slice on restriction fragment 101 (adjacent to 100). -/
def rep101 : Slice :=
  { rowBase with slice_name := "r|1", parent_read := "r", slice := 1,
                 start := 300, «end» := 400, coordinates := "chr1:300-400",
                 restriction_fragment := some 101 }

/-- Reporter slice on restriction fragment 103 (not adjacent to 100). -/
def rep103 : Slice :=
  { rowBase with slice_name := "r|2", parent_read := "r", slice := 2,
                 start := 700, «end» := 800, coordinates := "chr1:700-800",
                 restriction_fragment := some 103 }

/-- The fragment recomputed for parent read `r` after standard multi-capture
removal on the concrete capture/reporter table. -/
def c9ccfrag : Fragment :=
  aggGroup "r" (groupOf (removeMultiCaptureFragments [cap100, rep101, rep103]) "r")

/-- A capture slice whose restriction fragment is the `"."` sentinel. -/
def capDot : Slice :=
  { rowBase with slice_name := "d|0", parent_read := "d", capture := "B",
                 capture_count := 1, restriction_fragment := none }

/-! ### Claim C1 -/

/-- C1 (counterexample): on a table kept sorted by `(parent_read, slice)`
whose first slice (slice 0) is genomically later than its second (slice 1),
the fragment aggregation joins coordinates in `(chrom, start)` order, so the
first element of the joined string is the second slice's coordinates and not
the first slice's, contradicting the claimed 5′→3′ slice order. -/
theorem C1_counterexample :
    ccFragments [c1s0, c1s1] = [c1frag] ∧
    c1frag.coordinates = "chr1:300-400|chr2:100-200" ∧
    (splitBar c1frag.coordinates).headD "" = c1s1.coordinates ∧
    ¬ (splitBar c1frag.coordinates).headD "" = c1s0.coordinates ∧
    c1s0.slice = 0 ∧ c1s1.slice = 1 ∧ c1s0.parent_read = c1s1.parent_read := by
  decide

/-- C1 (amended): for every slice table, each fragment's `coordinates` is the
`"|"`-join of its slices' coordinates taken in genomic `(chrom, start)`
order — a permutation of the fragment's rows sorted genomically — rather
than in 5′→3′ slice order. -/
theorem C1_fragments_coordinates_genomic :
    ∀ (rows : List Slice) (f : Fragment), f ∈ ccFragments rows →
      ∃ g : List Slice,
        List.Perm g (rows.filter (fun s => s.parent_read = f.parent_read)) ∧
        g.Pairwise genLE ∧
        f.coordinates = String.intercalate "|" (g.map (·.coordinates)) := by
  intro rows f hf
  obtain ⟨hfe, -⟩ := ccFragments_self_of_mem hf
  refine ⟨groupOf rows f.parent_read, groupOf_perm rows f.parent_read,
    groupOf_pairwise_genLE rows f.parent_read, ?_⟩
  conv_lhs => rw [hfe]
  rfl

/-- Witness for C1 (amended) at the concrete two-slice table. -/
theorem C1_witness :
    ∃ g : List Slice,
      List.Perm g ([c1s0, c1s1].filter (fun s => s.parent_read = c1frag.parent_read)) ∧
      g.Pairwise genLE ∧
      c1frag.coordinates = String.intercalate "|" (g.map (·.coordinates)) :=
  C1_fragments_coordinates_genomic [c1s0, c1s1] c1frag (by decide)

/-! ### Claim C2 -/

/-- C2 (counterexample): `CCSliceFilter.slice_stats` on a zero-row table does
not return all-zero aggregates — the ten-zero-row padding makes every
`nunique`-based metric equal 1. -/
theorem C2_counterexample :
    (ccSliceStats []).unique_slices = 1 ∧
    (ccSliceStats []).unique_fragments = 1 ∧
    (ccSliceStats []).unique_capture_sites = 1 := by
  decide

/-- C2 (amended): on a zero-row table the slice statistics are computed
without raising; in the standard variant the sum/count metrics are 0 but the
`nunique` metrics are 1 (an artifact of the ten-zero-row padding), while the
tiled variant reports all-zero aggregates. -/
theorem C2_empty_table_stats :
    ccSliceStats [] =
      { unique_slices := 1, unique_fragments := 1, mapped := 0,
        multimapping_slices := 0, unique_capture_sites := 1,
        number_of_capture_slices := 0, number_of_slices_in_exclusion_region := 0,
        number_of_slices_in_blacklisted_region := 0 } ∧
    tiledSliceStats [] =
      { unique_slices := 0, unique_fragments := 0, mapped := 0,
        multimapping_slices := 0, number_of_capture_slices := 0,
        number_of_slices_in_blacklisted_region := 0 } := by
  decide

/-! ### Claim C3 -/

/-- C3 (counterexample): `exclusion_count` is one of the §3 input columns,
yet constructing a filter from a table missing it succeeds — the
constructor's required-column list does not contain it. -/
theorem C3_counterexample :
    "exclusion_count" ∈ specColumns ∧
    sliceFilterInit (specColumns.filter (fun v => ¬ v = "exclusion_count"))
      ccFilterStages = Except.ok () := by
  exact ⟨by decide, rfl⟩

/-- C3 (amended): construction fails, naming the missing column, for each of
the fourteen columns the constructor actually checks; the two remaining §3
columns, `exclusion_count` and `restriction_fragment`, are not checked and
their absence is not detected at construction. -/
theorem C3_construction_schema_check :
    (∀ c ∈ requiredColumns,
      sliceFilterInit (specColumns.filter (fun v => ¬ v = c)) ccFilterStages =
        Except.error ("Required column \"" ++ c ++ "\" not in slices dataframe")) ∧
    sliceFilterInit (specColumns.filter (fun v => ¬ v = "exclusion_count"))
      ccFilterStages = Except.ok () ∧
    sliceFilterInit (specColumns.filter (fun v => ¬ v = "restriction_fragment"))
      ccFilterStages = Except.ok () := by
  refine ⟨?_, rfl, rfl⟩
  intro c hc
  fin_cases hc <;> rfl

/-- Witness for C3 (amended) at the concrete column `capture`. -/
theorem C3_witness :
    sliceFilterInit (specColumns.filter (fun v => ¬ v = "capture")) ccFilterStages =
      Except.error ("Required column \"" ++ "capture" ++ "\" not in slices dataframe") :=
  C3_construction_schema_check.1 "capture" (by decide)

/-! ### Claim C5 -/

theorem countDistinct_eq_card_toFinset {β : Type} [DecidableEq β] (l : List β) :
    countDistinct l = l.toFinset.card := (List.card_toFinset l).symm

/-- Removing one value present in the list lowers the distinct count by
exactly one: `nunique − 1` equals the distinct count of the remaining values
exactly when the removed value occurs. -/
theorem countDistinct_filter_ne {β : Type} [DecidableEq β] (l : List β) (a : β)
    (h : a ∈ l) :
    (countDistinct l : Int) - 1 = countDistinct (l.filter (fun v => ¬ v = a)) := by
  rw [countDistinct_eq_card_toFinset, countDistinct_eq_card_toFinset]
  have hfe : (l.filter (fun v => ¬ v = a)).toFinset = l.toFinset.erase a := by
    rw [List.toFinset_filter]
    rw [← Finset.filter_ne' l.toFinset a]
    apply Finset.filter_congr
    intro x _
    simp
  rw [hfe, Finset.card_erase_of_mem (List.mem_toFinset.mpr h)]
  have hpos : 0 < l.toFinset.card := Finset.card_pos.mpr ⟨a, List.mem_toFinset.mpr h⟩
  omega

/-- When the sentinel is absent, dropping the `Option` wrapper preserves the
distinct count. -/
theorem countDistinct_filterMap_id (l : List (Option Int)) (h : ¬ none ∈ l) :
    countDistinct (l.filterMap id) = countDistinct l := by
  induction l with
  | nil => rfl
  | cons x xs ih =>
    have hx : ¬ none ∈ xs := fun hm => h (List.mem_cons_of_mem _ hm)
    cases x with
    | none => exact absurd (List.mem_cons_self _ _) h
    | some a =>
      have hstep : (some a :: xs).filterMap id = a :: xs.filterMap id := by
        simp [List.filterMap_cons]
      rw [hstep]
      by_cases hmem : some a ∈ xs
      · have hmem2 : a ∈ xs.filterMap id := List.mem_filterMap.mpr ⟨some a, hmem, rfl⟩
        rw [countDistinct, countDistinct, List.dedup_cons_of_mem hmem2,
          List.dedup_cons_of_mem hmem]
        exact ih hx
      · have hmem2 : ¬ a ∈ xs.filterMap id := by
          intro hm
          obtain ⟨o, ho, he⟩ := List.mem_filterMap.mp hm
          cases o with
          | none => simp at he
          | some b =>
            have : b = a := by simpa using he
            exact hmem (this ▸ ho)
        have h3 := ih hx
        rw [countDistinct, countDistinct] at h3
        rw [countDistinct, countDistinct, List.dedup_cons_of_not_mem hmem2,
          List.dedup_cons_of_not_mem hmem]
        simp only [List.length_cons]
        omega

/-- C5 (counterexample): a one-slice fragment whose capture is a real probe
(`"Slc25A37"`, one distinct non-sentinel value) and whose restriction
fragment is the sentinel (zero distinct non-sentinel values) gets
`unique_capture_sites = 0` (nunique − 1) and
`unique_restriction_fragments = 1` (plain nunique, sentinel counted). -/
theorem C5_counterexample :
    (ccFragments [c5s]).map (fun f => f.unique_capture_sites) = [0] ∧
    countDistinct (([c5s].map (fun s => s.capture)).filter (fun v => ¬ v = ".")) = 1 ∧
    (ccFragments [c5s]).map (fun f => f.unique_restriction_fragments) = [1] ∧
    countDistinct (([c5s].map (fun s => s.restriction_fragment)).filterMap id) = 0 := by
  decide

/-- C5 (amended): per fragment, `unique_capture_sites` and
`unique_exclusion_sites` equal the distinct count of all values (sentinel
included) minus one — which coincides with the distinct non-sentinel count
exactly when the sentinel occurs among the fragment's values — and
`unique_restriction_fragments` is the plain distinct count with the sentinel
counted as a value, coinciding with the distinct non-sentinel count exactly
when no sentinel occurs. -/
theorem C5_unique_site_counts :
    ∀ (rows : List Slice) (f : Fragment), f ∈ ccFragments rows →
      ∃ g : List Slice,
        List.Perm g (rows.filter (fun s => s.parent_read = f.parent_read)) ∧
        f.unique_capture_sites = (countDistinct (g.map (fun s => s.capture)) : Int) - 1 ∧
        f.unique_exclusion_sites = (countDistinct (g.map (fun s => s.exclusion)) : Int) - 1 ∧
        f.unique_restriction_fragments =
          countDistinct (g.map (fun s => s.restriction_fragment)) ∧
        ("." ∈ g.map (fun s => s.capture) →
          f.unique_capture_sites =
            countDistinct ((g.map (fun s => s.capture)).filter (fun v => ¬ v = "."))) ∧
        ("." ∈ g.map (fun s => s.exclusion) →
          f.unique_exclusion_sites =
            countDistinct ((g.map (fun s => s.exclusion)).filter (fun v => ¬ v = "."))) ∧
        (¬ none ∈ g.map (fun s => s.restriction_fragment) →
          (f.unique_restriction_fragments : Nat) =
            countDistinct ((g.map (fun s => s.restriction_fragment)).filterMap id)) := by
  intro rows f hf
  obtain ⟨hfe, -⟩ := ccFragments_self_of_mem hf
  refine ⟨groupOf rows f.parent_read, groupOf_perm rows f.parent_read, ?_, ?_, ?_, ?_, ?_, ?_⟩
  · conv_lhs => rw [hfe]
    rfl
  · conv_lhs => rw [hfe]
    rfl
  · conv_lhs => rw [hfe]
    rfl
  · intro hmem
    have h1 : f.unique_capture_sites =
        (countDistinct ((groupOf rows f.parent_read).map (fun s => s.capture)) : Int) - 1 := by
      conv_lhs => rw [hfe]
      rfl
    rw [h1]
    exact countDistinct_filter_ne _ _ hmem
  · intro hmem
    have h1 : f.unique_exclusion_sites =
        (countDistinct ((groupOf rows f.parent_read).map (fun s => s.exclusion)) : Int) - 1 := by
      conv_lhs => rw [hfe]
      rfl
    rw [h1]
    exact countDistinct_filter_ne _ _ hmem
  · intro hmem
    have h1 : f.unique_restriction_fragments =
        countDistinct ((groupOf rows f.parent_read).map (fun s => s.restriction_fragment)) := by
      conv_lhs => rw [hfe]
      rfl
    rw [h1]
    exact (countDistinct_filterMap_id _ hmem).symm

/-- Witness for C5 (amended) at the concrete one-slice table. -/
theorem C5_witness :
    ∃ g : List Slice,
      List.Perm g ([c5s].filter (fun s => s.parent_read = c5frag.parent_read)) ∧
      c5frag.unique_capture_sites = (countDistinct (g.map (fun s => s.capture)) : Int) - 1 ∧
      c5frag.unique_exclusion_sites = (countDistinct (g.map (fun s => s.exclusion)) : Int) - 1 ∧
      c5frag.unique_restriction_fragments =
        countDistinct (g.map (fun s => s.restriction_fragment)) ∧
      ("." ∈ g.map (fun s => s.capture) →
        c5frag.unique_capture_sites =
          countDistinct ((g.map (fun s => s.capture)).filter (fun v => ¬ v = "."))) ∧
      ("." ∈ g.map (fun s => s.exclusion) →
        c5frag.unique_exclusion_sites =
          countDistinct ((g.map (fun s => s.exclusion)).filter (fun v => ¬ v = "."))) ∧
      (¬ none ∈ g.map (fun s => s.restriction_fragment) →
        (c5frag.unique_restriction_fragments : Nat) =
          countDistinct ((g.map (fun s => s.restriction_fragment)).filterMap id)) :=
  C5_unique_site_counts [c5s] c5frag (by decide)

/-! ### Claim C10 -/

/-- C10: `remove_multicapture_reporters` is total exactly on tables whose
capture slices all carry integer restriction fragments: it succeeds when they
do, raises (`none`) as soon as one capture slice carries the `"."` sentinel,
and in the standard pipeline it runs in the stage before
`remove_slices_without_re_frag_assigned` removes unassigned fragments. -/
theorem C10_multicapture_reporters_partiality :
    (∀ rows : List Slice,
      (∀ t ∈ rows, ¬ t.capture = "." → t.restriction_fragment.isSome) →
      ∃ r, removeMulticaptureReporters 1 rows = some r) ∧
    (∀ rows : List Slice,
      (∃ t ∈ rows, ¬ t.capture = "." ∧ t.restriction_fragment = none) →
      removeMulticaptureReporters 1 rows = none) ∧
    ccFilterStages.findIdx (fun st => st.2.contains "remove_multicapture_reporters") <
      ccFilterStages.findIdx
        (fun st => st.2.contains "remove_slices_without_re_frag_assigned") := by
  refine ⟨?_, ?_, by decide⟩
  · intro rows hsome
    have hall : ((dedupFirst id
        ((rows.filter (fun s => ¬ s.capture = ".")).map (·.restriction_fragment))).all
          (·.isSome)) = true := by
      rw [List.all_eq_true]
      intro o ho
      have hmem := mem_of_mem_dedupFirst ho
      obtain ⟨t, ht, he⟩ := List.mem_map.mp hmem
      have ht2 := List.mem_filter.mp ht
      have hcap : ¬ t.capture = "." := by simpa using ht2.2
      rw [← he]
      exact hsome t ht2.1 hcap
    have hs : (removeMulticaptureReporters 1 rows).isSome = true := by
      simp only [removeMulticaptureReporters, hall, if_true, Option.isSome_some]
    obtain ⟨r, hr⟩ := Option.isSome_iff_exists.mp hs
    exact ⟨r, hr⟩
  · intro rows hbad
    obtain ⟨t, ht, hcap, hnone⟩ := hbad
    have hmem : (none : Option Int) ∈
        (rows.filter (fun s => ¬ s.capture = ".")).map (·.restriction_fragment) := by
      rw [List.mem_map]
      refine ⟨t, ?_, hnone⟩
      rw [List.mem_filter]
      exact ⟨ht, by simpa using hcap⟩
    obtain ⟨b, hb, hbe⟩ := exists_mem_dedupFirst (id : Option Int → Option Int) none _
      ⟨none, hmem, rfl⟩
    have hall : ((dedupFirst id
        ((rows.filter (fun s => ¬ s.capture = ".")).map (·.restriction_fragment))).all
          (·.isSome)) = false := by
      rw [Bool.eq_false_iff]
      intro hcontra
      rw [List.all_eq_true] at hcontra
      have hthis := hcontra b hb
      have hbe2 : b = none := hbe
      rw [hbe2] at hthis
      simp at hthis
    simp only [removeMulticaptureReporters, hall, Bool.false_eq_true, if_false]

/-- Witness for C10 at concrete inputs: the capture slice on restriction
fragment 100 succeeds, the capture slice with the `"."` sentinel raises. -/
theorem C10_witness :
    (∃ r, removeMulticaptureReporters 1 [cap100, rep101, rep103] = some r) ∧
    removeMulticaptureReporters 1 [capDot, rep101] = none :=
  ⟨C10_multicapture_reporters_partiality.1 [cap100, rep101, rep103] (by decide),
   C10_multicapture_reporters_partiality.2.1 [capDot, rep101] (by decide)⟩

/-! ### Claim C6 -/

/-- C6: every filter operation of every variant returns a sublist of its
input slice table — rows are only removed, never added, reordered or
mutated; for the two operations that can raise, this holds whenever they
return a table. -/
theorem C6_monotonic_shrinkage :
    ∀ rows : List Slice,
      List.Sublist (getRawSlices rows) rows ∧
      List.Sublist (removeUnmappedSlices rows) rows ∧
      List.Sublist (removeOrphanSlicesCC rows) rows ∧
      List.Sublist (removeOrphanSlicesTiled rows) rows ∧
      List.Sublist (removeDuplicateReFrags rows) rows ∧
      List.Sublist (removeSlicesWithoutReFragAssigned rows) rows ∧
      (∀ shuffled, List.Sublist (removeDuplicateSlices rows shuffled) rows) ∧
      List.Sublist (removeDuplicateSlicesPE rows) rows ∧
      List.Sublist (removeExcludedSlices rows) rows ∧
      List.Sublist (removeBlacklistedSlices rows) rows ∧
      List.Sublist (removeNonReporterFragments rows) rows ∧
      List.Sublist (removeMultiCaptureFragments rows) rows ∧
      (∀ (nAdj : Int) rows', removeMulticaptureReporters nAdj rows = some rows' →
        List.Sublist rows' rows) ∧
      List.Sublist (removeSlicesWithOneReporter rows) rows ∧
      List.Sublist (removeSlicesOutsideCapture rows) rows ∧
      List.Sublist (removeNonCaptureFragments rows) rows ∧
      (∀ rows', removeDualCaptureFragments rows = some rows' →
        List.Sublist rows' rows) := by
  intro rows
  refine ⟨List.Sublist.refl rows, List.filter_sublist rows, List.filter_sublist rows,
    List.filter_sublist rows, dedupFirst_sublist _ rows, List.filter_sublist rows,
    fun shuffled => List.filter_sublist rows, ?_, List.filter_sublist rows,
    List.filter_sublist rows, List.filter_sublist rows, List.filter_sublist rows,
    ?_, List.filter_sublist rows, List.filter_sublist rows, List.filter_sublist rows,
    ?_⟩
  · rw [removeDuplicateSlicesPE]
    split
    · exact List.filter_sublist rows
    · exact List.Sublist.refl rows
  · intro nAdj rows' h
    rw [removeMulticaptureReporters] at h
    split at h
    · rw [Option.some.injEq] at h
      rw [← h]
      exact List.filter_sublist rows
    · exact Option.noConfusion h
  · intro rows' h
    rw [removeDualCaptureFragments] at h
    split at h
    · rw [Option.some.injEq] at h
      rw [← h]
      exact List.filter_sublist rows
    · exact Option.noConfusion h

/-- Witness for C6 at a concrete table on which both raising operations
succeed. -/
theorem C6_witness :
    List.Sublist [cap100, rep103] [cap100, rep101, rep103] ∧
    List.Sublist [cap100, rep101, rep103] [cap100, rep101, rep103] :=
  ⟨(C6_monotonic_shrinkage [cap100, rep101, rep103]).2.2.2.2.2.2.2.2.2.2.2.2.1
      1 [cap100, rep103] (by rfl),
   (C6_monotonic_shrinkage [cap100, rep101, rep103]).2.2.2.2.2.2.2.2.2.2.2.2.2.2.2.2
      [cap100, rep101, rep103] (by rfl)⟩

/-! ### Claim C7 -/

/-- C7: for every permutation the shuffle may produce, duplicate-fragment
removal keeps exactly one fragment per `coordinates` value present, and the
surviving slices are exactly the rows whose parent read belongs to a
surviving fragment. -/
theorem C7_duplicate_fragment_removal :
    ∀ (rows : List Slice) (shuffled : List Fragment),
      List.Perm shuffled (ccFragments rows) →
      (∀ c : String, (∃ f ∈ ccFragments rows, f.coordinates = c) →
        (dedupFirst (fun f => f.coordinates) shuffled).countP
          (fun f => f.coordinates == c) = 1) ∧
      (∀ s : Slice, s ∈ removeDuplicateSlices rows shuffled ↔
        s ∈ rows ∧ ∃ f ∈ dedupFirst (fun f => f.coordinates) shuffled,
          f.parent_read = s.parent_read) := by
  intro rows shuffled hperm
  constructor
  · intro c hc
    rw [countP_dedupFirst]
    have hany : shuffled.any (fun f => f.coordinates == c) = true := by
      rw [List.any_eq_true]
      obtain ⟨f, hf, he⟩ := hc
      exact ⟨f, hperm.mem_iff.mpr hf, by simp [he]⟩
    rw [if_pos hany]
  · intro s
    rw [removeDuplicateSlices, List.mem_filter]
    simp only [parentIn, List.elem_iff, List.mem_map]

/-- Witness for C7 at the concrete two-slice table with the identity
shuffle. -/
theorem C7_witness :
    (dedupFirst (fun f => f.coordinates) (ccFragments [c1s0, c1s1])).countP
        (fun f => f.coordinates == c1frag.coordinates) = 1 :=
  (C7_duplicate_fragment_removal [c1s0, c1s1] (ccFragments [c1s0, c1s1])
      (List.Perm.refl _)).1 c1frag.coordinates ⟨c1frag, by decide, rfl⟩

/-! ### Claim C8 -/

/-- Membership in the `excluded_fragments` list of
`remove_multicapture_reporters` with `n_adjacent = 1`: the restriction
fragments within ±1 of one touched by a capture slice. -/
theorem mem_excludedFragments {rows : List Slice} {r : Int} :
    r ∈ (((dedupFirst id ((rows.filter (fun s => ¬ s.capture = ".")).map
        (·.restriction_fragment))).filterMap id).map
          (fun frag => (adjacentModifiers 1).map (frag + ·))).join ↔
      ∃ c : Int, (∃ t ∈ rows, ¬ t.capture = "." ∧ t.restriction_fragment = some c) ∧
        (r - c).natAbs ≤ 1 := by
  have hadj : adjacentModifiers 1 = [-1, 0, 1] := by decide
  rw [List.mem_join]
  constructor
  · rintro ⟨L, hL, hrL⟩
    obtain ⟨c, hc, he⟩ := List.mem_map.mp hL
    rw [← he] at hrL
    obtain ⟨m, hm, hme⟩ := List.mem_map.mp hrL
    obtain ⟨o, ho, hoe⟩ := List.mem_filterMap.mp hc
    have ho2 := mem_of_mem_dedupFirst ho
    obtain ⟨t, ht, hte⟩ := List.mem_map.mp ho2
    have ht2 := List.mem_filter.mp ht
    have hoc : o = some c := hoe
    have hm3 : m = -1 ∨ m = 0 ∨ m = 1 := by
      rw [hadj] at hm
      simpa using hm
    refine ⟨c, ⟨t, ht2.1, by simpa using ht2.2, by rw [hte]; exact hoc⟩, ?_⟩
    omega
  · rintro ⟨c, ⟨t, ht, hcap, hrf⟩, hnear⟩
    refine ⟨(adjacentModifiers 1).map (c + ·), ?_, ?_⟩
    · rw [List.mem_map]
      refine ⟨c, ?_, rfl⟩
      rw [List.mem_filterMap]
      have hmem : (some c : Option Int) ∈
          (rows.filter (fun s => ¬ s.capture = ".")).map (·.restriction_fragment) := by
        rw [List.mem_map]
        refine ⟨t, ?_, hrf⟩
        rw [List.mem_filter]
        exact ⟨ht, by simpa using hcap⟩
      obtain ⟨b, hb, hbe⟩ := exists_mem_dedupFirst (id : Option Int → Option Int)
        (some c) _ ⟨some c, hmem, rfl⟩
      have hbe2 : b = some c := hbe
      exact ⟨b, hb, by rw [hbe2]; rfl⟩
    · rw [List.mem_map, hadj]
      refine ⟨r - c, ?_, by ring⟩
      simp only [List.mem_cons, List.mem_singleton]
      omega

/-- C8: whenever `remove_multicapture_reporters` (standard variant,
`n_adjacent = 1`) succeeds, a slice survives iff it is a capture slice
(`capture_count > 0`) or its restriction fragment is not within ±1 of a
restriction fragment touched by a capture slice; in particular every
non-capture slice within ±1 of a capture-touched fragment is removed and no
slice with `capture_count > 0` is ever removed. -/
theorem C8_multicapture_adjacent_filtering :
    ∀ (rows rows' : List Slice), removeMulticaptureReporters 1 rows = some rows' →
      ∀ s ∈ rows, (s ∈ rows' ↔ (0 < s.capture_count ∨
        ∀ c r : Int,
          (∃ t ∈ rows, ¬ t.capture = "." ∧ t.restriction_fragment = some c) →
          s.restriction_fragment = some r → 1 < (r - c).natAbs)) := by
  intro rows rows' h s hs
  rw [removeMulticaptureReporters] at h
  split at h
  · rw [Option.some.injEq] at h
    subst h
    rw [List.mem_filter]
    simp only [hs, true_and, decide_eq_true_eq]
    constructor
    · rintro (hcc | hnot)
      · exact Or.inl hcc
      · right
        intro c r hcap hrf
        by_contra hcon
        push_neg at hcon
        apply hnot
        rw [hrf]
        simp only [Option.elim]
        rw [List.elem_iff]
        exact mem_excludedFragments.mpr ⟨c, hcap, by omega⟩
    · rintro (hcc | hfar)
      · exact Or.inl hcc
      · right
        intro hmem
        cases hrf : s.restriction_fragment with
        | none =>
          rw [hrf] at hmem
          simp [Option.elim] at hmem
        | some r =>
          rw [hrf] at hmem
          simp only [Option.elim] at hmem
          rw [List.elem_iff] at hmem
          obtain ⟨c, hcap, hnear⟩ := mem_excludedFragments.mp hmem
          have := hfar c r hcap hrf
          omega
  · exact Option.noConfusion h

/-- Witness for C8 at the spec's 100/101/103 example: the non-capture slice
on restriction fragment 101 is removed, the one on 103 is retained, the
capture slice itself is retained. -/
theorem C8_witness :
    (¬ rep101 ∈ [cap100, rep103] ∧ rep103 ∈ [cap100, rep103] ∧
      cap100 ∈ [cap100, rep103]) ∧
    ((rep101 ∈ [cap100, rep103]) ↔ (0 < rep101.capture_count ∨
      ∀ c r : Int,
        (∃ t ∈ [cap100, rep101, rep103], ¬ t.capture = "." ∧
          t.restriction_fragment = some c) →
        rep101.restriction_fragment = some r → 1 < (r - c).natAbs)) :=
  ⟨by decide,
   C8_multicapture_adjacent_filtering [cap100, rep101, rep103] [cap100, rep103]
     (by rfl) rep101 (by decide)⟩

/-! ### Claim C9 -/

theorem countDistinct_pos {β : Type} [DecidableEq β] {l : List β} {a : β}
    (h : a ∈ l) : 0 < countDistinct l :=
  List.length_pos_of_mem (List.mem_dedup.mpr h)

/-- Keeping whole fragments (filtering by a parent-read set containing `p`)
leaves the group of `p` unchanged up to permutation. -/
theorem groupOf_filter_parents (rows : List Slice) (q : Slice → Bool) (p : String)
    (hq : ∀ t ∈ rows, t.parent_read = p → q t = true) :
    (rows.filter q).filter (fun t => t.parent_read = p) =
      rows.filter (fun t => t.parent_read = p) := by
  rw [List.filter_filter]
  apply List.filter_congr
  intro t ht
  by_cases hp : t.parent_read = p
  · simp [hp, hq t ht hp]
  · simp [hp]

/-- C9: after multi-capture removal every fragment still represented has
exactly one capture site — in the standard variant every recomputed
fragment's `unique_capture_sites` is 1; in the tiled variant (whenever
`remove_dual_capture_fragments` returns) every surviving parent read has
exactly one distinct non-sentinel capture value. -/
theorem C9_exactly_one_capture :
    (∀ (rows : List Slice) (f : Fragment),
      f ∈ ccFragments (removeMultiCaptureFragments rows) →
        f.unique_capture_sites = 1) ∧
    (∀ (rows rows' : List Slice), removeDualCaptureFragments rows = some rows' →
      ∀ s ∈ rows', countDistinct
        (((rows'.filter (fun t => ¬ t.capture = ".")).filter
          (fun t => t.parent_read = s.parent_read)).map (fun t => t.capture)) = 1) := by
  constructor
  · intro rows f hf
    obtain ⟨hfe, hpk⟩ := ccFragments_self_of_mem hf
    obtain ⟨s, hs, hsp⟩ := mem_fragKeys.mp hpk
    simp only [removeMultiCaptureFragments] at hs
    have hs2 := List.mem_filter.mp hs
    have hin : ((((ccFragments rows).filter
        (fun f => 0 < f.unique_capture_sites ∧ f.unique_capture_sites < 2)).map
          (fun f => f.parent_read)).contains s.parent_read) = true := hs2.2
    rw [List.elem_iff] at hin
    obtain ⟨f₀, hf₀, hf₀p⟩ := List.mem_map.mp hin
    have hf₀2 := List.mem_filter.mp hf₀
    have hucs : f₀.unique_capture_sites = 1 := by
      have := hf₀2.2
      simp only [decide_eq_true_eq] at this
      omega
    obtain ⟨hf₀e, -⟩ := ccFragments_self_of_mem hf₀2.1
    -- the recomputed group of f.parent_read is a permutation of the original
    have hpp : f₀.parent_read = f.parent_read := by rw [hf₀p, hsp]
    have hkeep : ((((ccFragments rows).filter
        (fun f => 0 < f.unique_capture_sites ∧ f.unique_capture_sites < 2)).map
          (fun f => f.parent_read)).contains f.parent_read) = true := by
      rw [List.elem_iff]
      exact List.mem_map.mpr ⟨f₀, hf₀, hpp⟩
    have hgperm : List.Perm (groupOf (removeMultiCaptureFragments rows) f.parent_read)
        (groupOf rows f.parent_read) := by
      refine (groupOf_perm _ _).trans ?_
      simp only [removeMultiCaptureFragments]
      rw [groupOf_filter_parents rows _ f.parent_read ?_]
      · exact (groupOf_perm rows f.parent_read).symm
      · intro t ht htp
        simp only [parentIn]
        rw [htp]
        exact hkeep
    have hcd : countDistinct ((groupOf (removeMultiCaptureFragments rows)
        f.parent_read).map (fun t => t.capture)) =
        countDistinct ((groupOf rows f.parent_read).map (fun t => t.capture)) :=
      countDistinct_perm (hgperm.map _)
    have hval : f.unique_capture_sites = (countDistinct
        ((groupOf (removeMultiCaptureFragments rows) f.parent_read).map
          (fun t => t.capture)) : Int) - 1 := by
      conv_lhs => rw [hfe]
      rfl
    have hval₀ : f₀.unique_capture_sites = (countDistinct
        ((groupOf rows f₀.parent_read).map (fun t => t.capture)) : Int) - 1 := by
      conv_lhs => rw [hf₀e]
      rfl
    rw [hval, hcd]
    rw [hval₀, hpp] at hucs
    omega
  · intro rows rows' h s hs
    rw [removeDualCaptureFragments] at h
    split at h
    · rename_i hall
      rw [Option.some.injEq] at h
      subst h
      have hs2 := List.mem_filter.mp hs
      have hnm : ¬ multicaptureParent rows s.parent_read = true := by
        simpa using hs2.2
      have hgroup : ((rows.filter (fun t => ¬ multicaptureParent rows t.parent_read)).filter
          (fun t => ¬ t.capture = ".")).filter (fun t => t.parent_read = s.parent_read) =
          ((rows.filter (fun t => ¬ t.capture = ".")).filter
            (fun t => t.parent_read = s.parent_read)) := by
        rw [List.filter_comm]
        rw [groupOf_filter_parents]
        · rw [List.filter_comm]
        · intro t ht htp
          rw [htp]
          simpa using hnm
      rw [hgroup]
      -- upper bound from the dual-capture mask, lower bound from `hall`
      have hupper : ¬ (1 < countDistinct (((rows.filter (fun t => ¬ t.capture = ".")).filter
          (fun t => t.parent_read = s.parent_read)).map (fun t => t.capture))) := by
        intro hcon
        apply hnm
        rw [multicaptureParent]
        simpa using hcon
      rw [List.all_eq_true] at hall
      have hcont := hall s hs2.1
      rw [List.elem_iff, mem_uniqueKeys] at hcont
      obtain ⟨t, ht, htp⟩ := List.mem_map.mp hcont
      have hlower : 0 < countDistinct (((rows.filter (fun t => ¬ t.capture = ".")).filter
          (fun t => t.parent_read = s.parent_read)).map (fun t => t.capture)) := by
        apply countDistinct_pos (a := t.capture)
        rw [List.mem_map]
        refine ⟨t, ?_, rfl⟩
        rw [List.mem_filter]
        exact ⟨ht, by simpa using htp⟩
      omega
    · exact Option.noConfusion h

/-- Witness for C9 at concrete tables: the single-capture fragment survives
both variants with exactly one capture site. -/
theorem C9_witness :
    c9ccfrag.unique_capture_sites = 1 ∧
    countDistinct ((([cap100, rep101, rep103].filter (fun t => ¬ t.capture = ".")).filter
      (fun t => t.parent_read = cap100.parent_read)).map (fun t => t.capture)) = 1 :=
  ⟨C9_exactly_one_capture.1 [cap100, rep101, rep103] c9ccfrag (by decide),
   C9_exactly_one_capture.2 [cap100, rep101, rep103] [cap100, rep101, rep103]
     (by rfl) cap100 (by decide)⟩

/-! ### Claim C4 -/

/-- C4 (counterexample): with the table `peTable` (two unflashed fragments
whose 5′→3′-derived `(first slice start, last slice end)` pairs differ:
`ua` gives `(500, 200)`, `ub` gives `(100, 600)`), the operation nonetheless
drops fragment `ub` — the `(read_start, read_end)` pairs are derived from
the genomically sorted coordinates string, making both `("100", "600")`. -/
theorem C4_counterexample :
    removeDuplicateSlicesPE peTable = [peA0, peA1] ∧
    ¬ peB0 ∈ removeDuplicateSlicesPE peTable ∧
    (peA0.start, peA1.«end») = (500, 200) ∧
    (peB0.start, peB1.«end») = (100, 600) ∧
    peA0.slice = 0 ∧ peA1.slice = 1 ∧ peB0.slice = 0 ∧ peB1.slice = 1 ∧
    ¬ (peA0.start, peA1.«end») = (peB0.start, peB1.«end») := by
  decide

/-- From a count of at least two rows satisfying `q`, extract two rows with
distinct keys (given the key column has no duplicates). -/
theorem two_mem_of_two_le_countP {α β : Type} [DecidableEq β] (l : List α)
    (q : α → Bool) (key2 : α → β) (hnodup : (l.map key2).Nodup)
    (h : 2 ≤ l.countP q) :
    ∃ a ∈ l, ∃ b ∈ l, q a = true ∧ q b = true ∧ ¬ key2 a = key2 b := by
  rw [List.countP_eq_length_filter] at h
  rcases hl : l.filter q with - | ⟨a, t⟩
  · rw [hl] at h
    simp at h
  · rcases t with - | ⟨b, t2⟩
    · rw [hl] at h
      simp at h
    · have ha : a ∈ l.filter q := by
        rw [hl]
        exact List.mem_cons_self _ _
      have hb : b ∈ l.filter q := by
        rw [hl]
        exact List.mem_cons_of_mem _ (List.mem_cons_self _ _)
      have hfn : ((l.filter q).map key2).Nodup :=
        hnodup.sublist (List.Sublist.map _ (List.filter_sublist l))
      rw [hl] at hfn
      simp only [List.map_cons, List.nodup_cons, List.mem_cons] at hfn
      have hab : ¬ key2 a = key2 b := fun hc => hfn.1 (Or.inl hc)
      exact ⟨a, (List.mem_filter.mp ha).1, b, (List.mem_filter.mp hb).1,
        (List.mem_filter.mp ha).2, (List.mem_filter.mp hb).2, hab⟩

/-- C4 (amended): the operation is a no-op unless more than one slice
(not fragment) has `pe` containing `"unflashed"`; when it runs, a slice is
dropped only if its fragment is unflashed and some other unflashed fragment
has the same `(read_start, read_end)` pair derived from the first and last
entries of the genomically ordered coordinates string; fragments whose
slices are all flashed are untouched. -/
theorem C4_pe_duplicate_removal :
    ∀ rows : List Slice,
      (rows.countP peContainsUnflashed ≤ 1 → removeDuplicateSlicesPE rows = rows) ∧
      (∀ s ∈ rows, (∀ t ∈ rows, t.parent_read = s.parent_read → t.pe = "flashed") →
        s ∈ removeDuplicateSlicesPE rows) ∧
      (∀ s ∈ rows, ¬ s ∈ removeDuplicateSlicesPE rows →
        1 < rows.countP peContainsUnflashed ∧
        ∃ f ∈ ccFragments rows, f.parent_read = s.parent_read ∧ f.pe = "unflashed" ∧
          ∃ fy ∈ ccFragments rows, ¬ fy.parent_read = f.parent_read ∧
            fy.pe = "unflashed" ∧
            readStart fy.coordinates = readStart f.coordinates ∧
            readEnd fy.coordinates = readEnd f.coordinates) := by
  intro rows
  refine ⟨?_, ?_, ?_⟩
  · intro hle
    rw [removeDuplicateSlicesPE, if_neg (by omega)]
  · intro s hs hflashed
    rw [removeDuplicateSlicesPE]
    split
    · rw [List.mem_filter]
      refine ⟨hs, ?_⟩
      simp only [decide_eq_true_eq]
      intro hcontains
      rw [List.elem_iff] at hcontains
      obtain ⟨fd, hfd, hfdp⟩ := List.mem_map.mp hcontains
      have hfdPE := (dupByKey_sublist _ _).mem hfd
      have hfd2 := List.mem_filter.mp hfdPE
      have hfdUn : fd.pe = "unflashed" := by simpa using hfd2.2
      obtain ⟨hfde, hfdk⟩ := ccFragments_self_of_mem hfd2.1
      have hne := groupOf_ne_nil hfdk
      have hhead := headD_mem hne default
      have hh2 := mem_groupOf.mp hhead
      have hpe : fd.pe = ((groupOf rows fd.parent_read).headD default).pe := by
        conv_lhs => rw [hfde]
        rfl
      have hfl : ((groupOf rows fd.parent_read).headD default).pe = "flashed" :=
        hflashed _ hh2.1 (by rw [hh2.2, hfdp])
      rw [hpe, hfl] at hfdUn
      exact absurd hfdUn (by decide)
    · exact hs
  · intro s hs hdrop
    rw [removeDuplicateSlicesPE] at hdrop
    split at hdrop
    · rename_i hgt
      refine ⟨hgt, ?_⟩
      have hcontains : (((dupByKey
          (fun f => (readStart f.coordinates, readEnd f.coordinates))
          ((ccFragments rows).filter (fun f => f.pe = "unflashed"))).map
            (fun f => f.parent_read)).contains s.parent_read) = true := by
        by_contra hnc
        apply hdrop
        rw [List.mem_filter]
        refine ⟨hs, ?_⟩
        simp only [decide_eq_true_eq]
        intro hc
        exact hnc hc
      rw [List.elem_iff] at hcontains
      obtain ⟨fd, hfd, hfdp⟩ := List.mem_map.mp hcontains
      obtain ⟨hfdPE, hcount⟩ := dupByKey_spec _ _ _ hfd
      have hfd2 := List.mem_filter.mp hfdPE
      have hfdUn : fd.pe = "unflashed" := by simpa using hfd2.2
      refine ⟨fd, hfd2.1, hfdp, hfdUn, ?_⟩
      -- extract a second fragment with the same derived key
      have hnodup : ((((ccFragments rows).filter (fun f => f.pe = "unflashed")).map
          (fun f => f.parent_read)).Nodup) :=
        (ccFragments_parents_nodup rows).sublist
          (List.Sublist.map _ (List.filter_sublist _))
      obtain ⟨a, haPE, b, hbPE, haq, hbq, hab⟩ :=
        two_mem_of_two_le_countP _ _ (fun f => f.parent_read) hnodup hcount
      have hakey : readStart a.coordinates = readStart fd.coordinates ∧
          readEnd a.coordinates = readEnd fd.coordinates := by
        have h2 : (readStart a.coordinates, readEnd a.coordinates) =
            (readStart fd.coordinates, readEnd fd.coordinates) :=
          of_decide_eq_true haq
        exact ⟨congrArg Prod.fst h2, congrArg Prod.snd h2⟩
      have hbkey : readStart b.coordinates = readStart fd.coordinates ∧
          readEnd b.coordinates = readEnd fd.coordinates := by
        have h2 : (readStart b.coordinates, readEnd b.coordinates) =
            (readStart fd.coordinates, readEnd fd.coordinates) :=
          of_decide_eq_true hbq
        exact ⟨congrArg Prod.fst h2, congrArg Prod.snd h2⟩
      have haCC := List.mem_filter.mp haPE
      have hbCC := List.mem_filter.mp hbPE
      by_cases hafd : a.parent_read = fd.parent_read
      · refine ⟨b, hbCC.1, ?_, by simpa using hbCC.2, hbkey.1, hbkey.2⟩
        rw [← hafd]
        intro hcontra
        exact hab hcontra.symm
      · exact ⟨a, haCC.1, hafd, by simpa using haCC.2, hakey.1, hakey.2⟩
    · exact absurd hs hdrop

/-- Witness for C4 (amended): the no-op case on an all-flashed one-row
table, and the drop case at the concrete `peTable`. -/
theorem C4_witness :
    removeDuplicateSlicesPE [rowBase] = [rowBase] ∧
    (1 < peTable.countP peContainsUnflashed ∧
      ∃ f ∈ ccFragments peTable, f.parent_read = peB0.parent_read ∧
        f.pe = "unflashed" ∧
        ∃ fy ∈ ccFragments peTable, ¬ fy.parent_read = f.parent_read ∧
          fy.pe = "unflashed" ∧
          readStart fy.coordinates = readStart f.coordinates ∧
          readEnd fy.coordinates = readEnd f.coordinates) :=
  ⟨(C4_pe_duplicate_removal [rowBase]).1 (by decide),
   (C4_pe_duplicate_removal peTable).2.2 peB0 (by decide) (by decide)⟩

end CCAnalyser
